import Mathlib

/-!
Verification of the roulette kinematics engine (roulette.py).

The Python module is embedded shallowly over the rationals: every float
becomes a rational number, so that the algebraic identities the module is
designed around can be settled exactly.  Python runtime errors
(ZeroDivisionError on float division by zero, ValueError raised by the
code, IndexError and AttributeError on bad accesses) are modelled with an
explicit error type and Except-valued functions wherever the source can
raise.
-/

/-- Runtime errors the embedded Python code can raise. -/
inductive PyErr where
  | valueError : String → PyErr
  | zeroDivisionError : PyErr
  | indexError : PyErr
  | attributeError : PyErr
deriving DecidableEq

/-- Python float division: raises ZeroDivisionError when the divisor is zero. -/
def pyDiv (a b : ℚ) : Except PyErr ℚ :=
  if b = 0 then Except.error PyErr.zeroDivisionError else Except.ok (a / b)

/-- Python modulo on floats for a nonzero right operand:
x % y = x - y * floor (x / y), whose sign follows the divisor. -/
def pyMod (x y : ℚ) : ℚ := x - y * (⌊x / y⌋ : ℤ)

/-- The Stages enumeration of roulette.py. -/
inductive Stages where
  | ACCELERATION_STAGE : Stages
  | LINEAR_STAGE : Stages
  | DECCELERATION_STAGE : Stages
  | STOP : Stages
deriving DecidableEq

/-- Numeric value of each enumeration member, as declared in the source. -/
def Stages.value : Stages → ℤ
  | .ACCELERATION_STAGE => 1
  | .LINEAR_STAGE => 0
  | .DECCELERATION_STAGE => -1
  | .STOP => 2

/-- get_acceleration of roulette.py: (final_speed - initial_speed) / target_time
when target_time > 0, else 0.  The guard makes the division safe, so the
function is embedded as a total function; get_accelerationE below keeps the
raising semantics of the Python division and is proved equal. -/
def get_acceleration (initial_speed target_time final_speed : ℚ) : ℚ :=
  if target_time > 0 then (final_speed - initial_speed) / target_time else 0

/-- get_acceleration with the Python division that can raise ZeroDivisionError. -/
def get_accelerationE (initial_speed target_time final_speed : ℚ) : Except PyErr ℚ :=
  if target_time > 0 then pyDiv (final_speed - initial_speed) target_time
  else Except.ok 0

/-- get_angle of roulette.py: the raw angle
initial_angle + initial_speed * t + acceleration * t^2 / 2, reduced by
the Python modulo operator into the interval from 0 to 360. -/
def get_angle (initial_speed acceleration cur_time initial_angle : ℚ) : ℚ :=
  pyMod (initial_angle + initial_speed * cur_time +
    acceleration * cur_time ^ 2 / 2) 360

/-- get_speed of roulette.py. -/
def get_speed (initial_speed acceleration cur_time : ℚ) : ℚ :=
  initial_speed + acceleration * cur_time

/-- The mutable fields a real (non STOP) Stage object carries after
construction in roulette.py. -/
structure StageData where
  stage_type : Stages
  time_coefficient : ℚ
  duration : ℚ
  start_time : ℚ
  start_speed : ℚ
  end_speed : ℚ
  acceleration : ℚ
deriving DecidableEq

/-- Stage.get_end_time. -/
def StageData.get_end_time (s : StageData) : ℚ := s.start_time + s.duration

/-- Stage.is_active: start_time <= cur_time < end_time, a half open interval. -/
def StageData.is_active (s : StageData) (cur_time : ℚ) : Bool :=
  decide (cur_time ≥ s.start_time) && decide (cur_time < s.get_end_time)

/-- A Stage object: the STOP sentinel sets only stage_type and carries no
timing data; every other stage carries the full field set. -/
inductive Stage where
  | stopped : Stage
  | real : StageData → Stage
deriving DecidableEq

/-- STOP_ID of roulette.py. -/
def STOP_ID : ℤ := -1

/-- STOP_STAGE of roulette.py: Stage(Stages.STOP, 0). -/
def STOP_STAGE : Stage := Stage.stopped

/-- The Stage constructor. With the STOP kind it returns right after
recording the type; otherwise a negative duration raises ValueError, the
time coefficient is duration / total_spin_time when a total was given
(Python division, raising on a zero total), and the acceleration is
derived from the boundary speeds. -/
def Stage.init (stage_type : Stages) (duration start_time : ℚ)
    (start_speed end_speed total_spin_time : ℚ) :
    Except PyErr Stage :=
  if stage_type.value = Stages.STOP.value then Except.ok Stage.stopped
  else if duration < 0 then
    Except.error (PyErr.valueError "Stage duration cannot be negative")
  else do
    let time_coefficient ←
      if total_spin_time ≠ -1 then pyDiv duration total_spin_time
      else Except.ok (-1)
    Except.ok (Stage.real
      { stage_type := stage_type
        time_coefficient := time_coefficient
        duration := duration
        start_time := start_time
        start_speed := start_speed
        end_speed := end_speed
        acceleration := get_acceleration start_speed duration end_speed })

/-- Stage.update_total_time: record the coefficient, move the start time,
recompute duration = total_time * coefficient and re-derive acceleration. -/
def StageData.update_total_time (s : StageData)
    (start_time total_time time_coefficient : ℚ) : StageData :=
  { s with
    time_coefficient := time_coefficient
    start_time := start_time
    duration := total_time * time_coefficient
    acceleration :=
      get_acceleration s.start_speed (total_time * time_coefficient) s.end_speed }

/-- Stage.get_total_path: start_speed * duration + acceleration * duration^2 / 2. -/
def StageData.get_total_path (s : StageData) : ℚ :=
  s.start_speed * s.duration + s.acceleration * s.duration ^ 2 / 2

/-- get_initial_speed of roulette.py: raises ValueError unless exactly three
stages are given; otherwise solves the path equation for the initial speed
with the Python division by t1 + t2 + t3 (which raises ZeroDivisionError
when all three durations are zero). -/
def get_initial_speed (target_angle : ℚ) (spins_amount : ℤ)
    (stages_list : List StageData) (initial_angle : ℚ) : Except PyErr ℚ :=
  match stages_list with
  | [s1, s2, s3] =>
    let total_path : ℚ := target_angle + 360 * (spins_amount : ℚ) - initial_angle
    let t1 := s1.duration
    let t2 := s2.duration
    let t3 := s3.duration
    let a1 := s1.acceleration
    let a2 := s2.acceleration
    let a3 := s3.acceleration
    pyDiv (total_path -
      (a1 * t1 ^ 2 / 2 + a2 * t2 ^ 2 / 2 + a3 * t3 ^ 2 / 2 +
       a1 * t1 * t2 + a1 * t1 * t3 + a2 * t2 * t3)) (t1 + t2 + t3)
  | _ => Except.error (PyErr.valueError "Stages amount must be 3")

/-- get_simple_initial_speed of roulette.py. -/
def get_simple_initial_speed (target_angle : ℚ) (spins_amount : ℤ)
    (target_time initial_angle : ℚ) : Except PyErr ℚ :=
  pyDiv (2 * (target_angle + 360 * (spins_amount : ℚ) - initial_angle)) target_time

/-- Acceleration stage sample used by concrete witnesses: duration 1,
speeds 0 to 2, acceleration 2. -/
def wStage1 : StageData :=
  { stage_type := Stages.ACCELERATION_STAGE, time_coefficient := -1,
    duration := 1, start_time := 0, start_speed := 0, end_speed := 2,
    acceleration := 2 }

/-- Linear stage sample used by concrete witnesses: duration 1, constant
speed 2. -/
def wStage2 : StageData :=
  { stage_type := Stages.LINEAR_STAGE, time_coefficient := -1,
    duration := 1, start_time := 1, start_speed := 2, end_speed := 2,
    acceleration := 0 }

/-- Deceleration stage sample used by concrete witnesses: duration 1,
speeds 2 to 0, acceleration -2. -/
def wStage3 : StageData :=
  { stage_type := Stages.DECCELERATION_STAGE, time_coefficient := -1,
    duration := 1, start_time := 2, start_speed := 2, end_speed := 0,
    acceleration := -2 }

/-- Zero duration stage, legal to construct, used to exhibit the division
by zero inside the three phase solver. -/
def zStage : StageData :=
  { stage_type := Stages.ACCELERATION_STAGE, time_coefficient := -1,
    duration := 0, start_time := 0, start_speed := 0, end_speed := 0,
    acceleration := 0 }

/-- Sum of the durations of a list of stages. -/
def sumDur (l : List StageData) : ℚ := (l.map StageData.duration).sum

/-- The StagesController of roulette.py, restricted to the fields the
verified operations read or write (the kind indexed lookup dict is written
by append_stage but never read by any operation under verification). -/
structure StagesController where
  stage_order : List StageData
  active_stage_id : ℤ
  total_spin_time : ℚ
  total_stages_duration : ℚ
deriving DecidableEq

/-- A fresh StagesController with an empty stage list. -/
def StagesController.new (total_spin_time : ℚ) : StagesController :=
  { stage_order := [], active_stage_id := 0,
    total_spin_time := total_spin_time, total_stages_duration := 0 }

/-- StagesController.append_stage: the appended stage starts where the
last stage ends (or at 0 in an empty list) and its duration is added to
the running total. -/
def StagesController.append_stage (c : StagesController) (s : StageData) :
    StagesController :=
  let s2 := { s with start_time :=
    match c.stage_order.getLast? with
    | some prev => prev.get_end_time
    | none => 0 }
  { c with stage_order := c.stage_order ++ [s2],
           total_stages_duration := c.total_stages_duration + s2.duration }

/-- StagesController.emplace_stage: construct a stage against the current
total spin time and append it; appending the STOP sentinel would fault on
its missing duration field. -/
def StagesController.emplace_stage (c : StagesController) (stage_type : Stages)
    (duration start_speed end_speed : ℚ) : Except PyErr StagesController := do
  let st ← Stage.init stage_type duration 0 start_speed end_speed c.total_spin_time
  match st with
  | Stage.stopped => Except.error PyErr.attributeError
  | Stage.real d => Except.ok (c.append_stage d)

/-- Python list subscript with negative index wraparound. -/
def pyGet (l : List StageData) (i : ℤ) : Option StageData :=
  let j : ℤ := if i < 0 then (l.length : ℤ) + i else i
  if 0 ≤ j then l.get? j.toNat else none

/-- The integer interval a, a+1, ..., b-1, the Python range(a, b). -/
def intRange (a b : ℤ) : List ℤ :=
  (List.range (b - a).toNat).map (fun k => a + Int.ofNat k)

/-- The scan loop of StagesController.get_current_stage: walk the given
index list, skip STOP_ID, stop at the first active stage. -/
def findActiveAux (stages : List StageData) (cur_time : ℚ) :
    List ℤ → Option (ℤ × StageData)
  | [] => none
  | i :: rest =>
    if i = STOP_ID then findActiveAux stages cur_time rest
    else match pyGet stages i with
      | some s =>
        if s.is_active cur_time then some (i, s)
        else findActiveAux stages cur_time rest
      | none => none

/-- StagesController.get_current_stage: scan forward from the cached
cursor (the range runs from the cursor to the end of the list, and a
STOP_ID cursor restarts the scan at index 0 because the STOP_ID entry of
the range is skipped); set the cursor to the found index and return the
stage, or set the cursor to STOP_ID and return STOP_STAGE when no stage
is active. -/
def StagesController.get_current_stage (c : StagesController) (cur_time : ℚ) :
    StagesController × Stage :=
  match findActiveAux c.stage_order cur_time
      (intRange c.active_stage_id c.stage_order.length) with
  | some (i, s) => ({ c with active_stage_id := i }, Stage.real s)
  | none => ({ c with active_stage_id := STOP_ID }, STOP_STAGE)

/-- The loop of StagesController.update_total_time: rescale every stage in
order against the new total, threading the running start time and
accumulating the sum of the new durations; the coefficient falls back to
duration / total_spin_time (a raising Python division) when unset. -/
def updateStagesAux (old_total new_total : ℚ) :
    ℚ → List StageData → Except PyErr (List StageData × ℚ)
  | _, [] => Except.ok ([], 0)
  | start_time, s :: rest => do
    let coeff ←
      if s.time_coefficient ≠ -1 then Except.ok s.time_coefficient
      else pyDiv s.duration old_total
    let s2 := s.update_total_time start_time new_total coeff
    let (rest2, tot) ← updateStagesAux old_total new_total s2.get_end_time rest
    Except.ok (s2 :: rest2, s2.duration + tot)

/-- StagesController.update_total_time: rescale all stages, then, when the
new durations do not add up to the requested total, stretch the last
stage by the difference (faulting on an empty list) and record the
requested total as the stage duration sum. -/
def StagesController.update_total_time (c : StagesController)
    (new_total_time : ℚ) : Except PyErr StagesController := do
  let (stages2, total2) ←
    updateStagesAux c.total_spin_time new_total_time 0 c.stage_order
  if total2 ≠ new_total_time then
    match stages2.getLast? with
    | none => Except.error PyErr.indexError
    | some last =>
      let last2 :=
        { last with duration := last.duration + (new_total_time - total2) }
      Except.ok { c with
        stage_order := stages2.dropLast ++ [last2],
        total_stages_duration := new_total_time,
        total_spin_time := new_total_time }
  else
    Except.ok { c with
      stage_order := stages2,
      total_stages_duration := total2,
      total_spin_time := new_total_time }

/-- Stages chained gaplessly beginning at t0: each stage starts where the
previous one ends, and durations are nonnegative as guaranteed by the
Stage constructor. -/
def ChainedFrom (t0 : ℚ) : List StageData → Prop
  | [] => True
  | s :: rest =>
    s.start_time = t0 ∧ 0 ≤ s.duration ∧ ChainedFrom (t0 + s.duration) rest

/-- Controllers reachable from a fresh empty controller by append_stage
and successful emplace_stage calls; directly appended stages carry the
nonnegative duration every constructed Stage object has. -/
inductive BuiltByAppends : StagesController → Prop
  | new (total_spin_time : ℚ) :
      BuiltByAppends (StagesController.new total_spin_time)
  | append (c : StagesController) (s : StageData) (hc : BuiltByAppends c)
      (hd : 0 ≤ s.duration) : BuiltByAppends (c.append_stage s)
  | emplace (c c2 : StagesController) (stage_type : Stages)
      (duration start_speed end_speed : ℚ) (hc : BuiltByAppends c)
      (h : c.emplace_stage stage_type duration start_speed end_speed =
        Except.ok c2) : BuiltByAppends c2

/-- A one stage controller with a fresh cursor, used by concrete
witnesses. -/
def cEx1 : StagesController :=
  { stage_order := [wStage1], active_stage_id := 0,
    total_spin_time := 1, total_stages_duration := 1 }

/-- A three stage controller with a fresh cursor and total time 3, used by
concrete witnesses. -/
def cEx3 : StagesController :=
  { stage_order := [wStage1, wStage2, wStage3], active_stage_id := 0,
    total_spin_time := 3, total_stages_duration := 3 }

/-- The three stage controller after its cursor has been parked on the
STOP_ID sentinel. -/
def cExStop : StagesController :=
  { stage_order := [wStage1, wStage2, wStage3], active_stage_id := STOP_ID,
    total_spin_time := 3, total_stages_duration := 3 }

/-- C7. get_acceleration returns (v1 - v0) / duration when duration > 0 and
0 otherwise, and the Python division never raises because it is guarded by
duration > 0. -/
theorem c7_get_acceleration_spec (v0 d v1 : ℚ) :
    get_accelerationE v0 d v1 = Except.ok (get_acceleration v0 d v1) ∧
    (0 < d → get_acceleration v0 d v1 = (v1 - v0) / d) ∧
    (d ≤ 0 → get_acceleration v0 d v1 = 0) := by
  refine ⟨?_, ?_, ?_⟩
  · unfold get_accelerationE get_acceleration pyDiv
    by_cases h : d > 0
    · simp only [h, if_true, if_pos h, if_neg (ne_of_gt h)]
    · simp [h]
  · intro h
    simp [get_acceleration, h]
  · intro h
    simp [get_acceleration, not_lt.mpr h]

/-- Witness for C7 at v0 = 1, d = 2, v1 = 5 and at v0 = 1, d = 0, v1 = 5. -/
theorem c7_witness :
    get_accelerationE 1 2 5 = Except.ok (get_acceleration 1 2 5) ∧
    get_acceleration 1 2 5 = (5 - 1) / 2 ∧
    get_acceleration 1 0 5 = 0 :=
  ⟨(c7_get_acceleration_spec 1 2 5).1,
   (c7_get_acceleration_spec 1 2 5).2.1 (by norm_num),
   (c7_get_acceleration_spec 1 0 5).2.2 (by norm_num)⟩

/-- C8. get_angle lands in the interval from 0 inclusive to 360 exclusive
for every input, including those whose raw angle is negative, and the
normalization subtracts an integer multiple of 360 (wrapping, not
truncation). -/
theorem c8_get_angle_range (v0 a t angle0 : ℚ) :
    0 ≤ get_angle v0 a t angle0 ∧ get_angle v0 a t angle0 < 360 ∧
    ∃ k : ℤ, get_angle v0 a t angle0 =
      (angle0 + v0 * t + a * t ^ 2 / 2) - 360 * k := by
  set raw : ℚ := angle0 + v0 * t + a * t ^ 2 / 2 with hraw
  have hval : get_angle v0 a t angle0 = 360 * Int.fract (raw / 360) := by
    unfold get_angle pyMod
    rw [← hraw]
    have h360 : (360 : ℚ) ≠ 0 := by norm_num
    rw [Int.fract]
    field_simp
  refine ⟨?_, ?_, ⟨⌊raw / 360⌋, ?_⟩⟩
  · rw [hval]
    have := Int.fract_nonneg (raw / 360)
    positivity
  · rw [hval]
    have h1 : Int.fract (raw / 360) < 1 := Int.fract_lt_one _
    nlinarith [Int.fract_nonneg (raw / 360)]
  · unfold get_angle pyMod
    rw [← hraw]

/-- The numeric value of a Stages member equals the value of STOP exactly
when the member is STOP itself (the enumeration compares by value). -/
theorem stages_value_eq_stop_iff (k : Stages) :
    k.value = Stages.STOP.value ↔ k = Stages.STOP := by
  cases k <;> decide

/-- C5. Constructing a Stage with a non STOP kind and negative duration
fails with the invalid duration ValueError and yields no stage object at
all, while the STOP kind always succeeds immediately with the bare
sentinel, whatever the duration argument is. -/
theorem c5_stage_init_validation (stage_type : Stages)
    (duration start_time start_speed end_speed total_spin_time : ℚ) :
    (stage_type = Stages.STOP →
      Stage.init stage_type duration start_time start_speed end_speed
        total_spin_time = Except.ok Stage.stopped) ∧
    (stage_type ≠ Stages.STOP → duration < 0 →
      Stage.init stage_type duration start_time start_speed end_speed
        total_spin_time =
        Except.error (PyErr.valueError "Stage duration cannot be negative")) := by
  constructor
  · intro h
    subst h
    simp [Stage.init]
  · intro hk hdneg
    unfold Stage.init
    rw [if_neg, if_pos hdneg]
    intro hv
    exact hk ((stages_value_eq_stop_iff stage_type).mp hv)

/-- Witness for C5: the STOP kind succeeds even with duration -5, and an
acceleration stage with duration -1 fails with the invalid duration error. -/
theorem c5_witness :
    Stage.init Stages.STOP (-5) 0 0 0 (-1) = Except.ok Stage.stopped ∧
    Stage.init Stages.ACCELERATION_STAGE (-1) 0 0 0 (-1) =
      Except.error (PyErr.valueError "Stage duration cannot be negative") :=
  ⟨(c5_stage_init_validation Stages.STOP (-5) 0 0 0 (-1)).1 rfl,
   (c5_stage_init_validation Stages.ACCELERATION_STAGE (-1) 0 0 0 (-1)).2
     (by decide) (by norm_num)⟩

/-- C1. With three stages whose durations sum to a positive value, the
solver returns an initial speed v0 such that the three phase path sum,
with v2 = v0 + a1 t1 and v3 = v2 + a2 t2, equals
target_angle + 360 spins_amount - initial_angle exactly. -/
theorem c1_three_phase_solver_path (target_angle initial_angle : ℚ)
    (spins_amount : ℤ) (s1 s2 s3 : StageData)
    (h : 0 < s1.duration + s2.duration + s3.duration) :
    ∃ v0, get_initial_speed target_angle spins_amount [s1, s2, s3]
        initial_angle = Except.ok v0 ∧
      (v0 * s1.duration + s1.acceleration * s1.duration ^ 2 / 2) +
      ((v0 + s1.acceleration * s1.duration) * s2.duration +
        s2.acceleration * s2.duration ^ 2 / 2) +
      ((v0 + s1.acceleration * s1.duration + s2.acceleration * s2.duration) *
        s3.duration + s3.acceleration * s3.duration ^ 2 / 2) =
      target_angle + 360 * (spins_amount : ℚ) - initial_angle := by
  have hS : s1.duration + s2.duration + s3.duration ≠ 0 := ne_of_gt h
  have hok : get_initial_speed target_angle spins_amount [s1, s2, s3]
      initial_angle = Except.ok
      ((target_angle + 360 * (spins_amount : ℚ) - initial_angle -
        (s1.acceleration * s1.duration ^ 2 / 2 +
         s2.acceleration * s2.duration ^ 2 / 2 +
         s3.acceleration * s3.duration ^ 2 / 2 +
         s1.acceleration * s1.duration * s2.duration +
         s1.acceleration * s1.duration * s3.duration +
         s2.acceleration * s2.duration * s3.duration)) /
        (s1.duration + s2.duration + s3.duration)) := by
    simp only [get_initial_speed]
    unfold pyDiv
    rw [if_neg hS]
  refine ⟨_, hok, ?_⟩
  field_simp
  ring

/-- Witness for C1 on the sample acceleration, linear and deceleration
stages, each of duration 1, with target angle 90, two spins and initial
angle 0. -/
theorem c1_witness :
    ∃ v0, get_initial_speed 90 2 [wStage1, wStage2, wStage3] 0 =
        Except.ok v0 ∧
      (v0 * wStage1.duration + wStage1.acceleration * wStage1.duration ^ 2 / 2) +
      ((v0 + wStage1.acceleration * wStage1.duration) * wStage2.duration +
        wStage2.acceleration * wStage2.duration ^ 2 / 2) +
      ((v0 + wStage1.acceleration * wStage1.duration +
        wStage2.acceleration * wStage2.duration) * wStage3.duration +
        wStage3.acceleration * wStage3.duration ^ 2 / 2) =
      90 + 360 * ((2 : ℤ) : ℚ) - 0 :=
  c1_three_phase_solver_path 90 0 2 wStage1 wStage2 wStage3
    (by norm_num [wStage1, wStage2, wStage3])

/-- C6 counterexample: three legally constructed zero duration stages make
the solver divide by zero, so an error is raised even though exactly three
phases were given. -/
theorem c6_counterexample :
    [zStage, zStage, zStage].length = 3 ∧
    get_initial_speed 0 0 [zStage, zStage, zStage] 0 =
      Except.error PyErr.zeroDivisionError := by
  constructor
  · rfl
  · norm_num [get_initial_speed, pyDiv, zStage]

/-- The Python division raises at most ZeroDivisionError, never a
ValueError. -/
theorem pyDiv_ne_valueError (a b : ℚ) (msg : String) :
    pyDiv a b ≠ Except.error (PyErr.valueError msg) := by
  unfold pyDiv
  split <;> simp

/-- C6 amended. The solver fails with the phase count ValueError exactly
when the list does not hold three stages, and with three stages it returns
a value whenever the durations do not sum to zero (when they do, it raises
ZeroDivisionError instead). -/
theorem c6_amended_phase_count (ta ia : ℚ) (sa : ℤ) (l : List StageData) :
    (get_initial_speed ta sa l ia =
        Except.error (PyErr.valueError "Stages amount must be 3") ↔
      l.length ≠ 3) ∧
    (∀ s1 s2 s3, l = [s1, s2, s3] →
      s1.duration + s2.duration + s3.duration ≠ 0 →
      ∃ v, get_initial_speed ta sa l ia = Except.ok v) := by
  constructor
  · match l with
    | [] => simp [get_initial_speed]
    | [a] => simp [get_initial_speed]
    | [a, b] => simp [get_initial_speed]
    | [a, b, c] =>
      constructor
      · intro hcontra
        simp only [get_initial_speed] at hcontra
        exact absurd hcontra (pyDiv_ne_valueError _ _ _)
      · intro hlen
        exact absurd rfl hlen
    | a :: b :: c :: d :: t => simp [get_initial_speed]
  · rintro s1 s2 s3 rfl hS
    simp only [get_initial_speed]
    unfold pyDiv
    rw [if_neg hS]
    exact ⟨_, rfl⟩

/-- Witness for C6 amended: a two stage list triggers the phase count
error, and the three sample stages with total duration 3 succeed. -/
theorem c6_witness :
    get_initial_speed 0 0 [wStage1, wStage2] 0 =
      Except.error (PyErr.valueError "Stages amount must be 3") ∧
    ∃ v, get_initial_speed 90 2 [wStage1, wStage2, wStage3] 0 =
      Except.ok v :=
  ⟨(c6_amended_phase_count 0 0 0 [wStage1, wStage2]).1.mpr (by decide),
   (c6_amended_phase_count 90 0 2 [wStage1, wStage2, wStage3]).2
     wStage1 wStage2 wStage3 rfl (by norm_num [wStage1, wStage2, wStage3])⟩

/-- Unfolding of Stage.is_active into its two inequalities. -/
theorem is_active_iff (s : StageData) (t : ℚ) :
    s.is_active t = true ↔ s.start_time ≤ t ∧ t < s.start_time + s.duration := by
  simp [StageData.is_active, StageData.get_end_time, Bool.and_eq_true,
    decide_eq_true_eq, ge_iff_le]

/-- A Python subscript with a nonnegative index is a plain list lookup. -/
theorem pyGet_ofNat (l : List StageData) (k : ℕ) :
    pyGet l (k : ℤ) = l.get? k := by
  unfold pyGet
  have h1 : ¬((k : ℤ) < 0) := by omega
  rw [if_neg h1, if_pos (by omega : (0:ℤ) ≤ (k : ℤ))]
  simp

/-- Every element of range(a, b) lies between a and b. -/
theorem mem_intRange {i a b : ℤ} (h : i ∈ intRange a b) : a ≤ i ∧ i < b := by
  unfold intRange at h
  simp only [List.mem_map, List.mem_range] at h
  obtain ⟨k, hk, rfl⟩ := h
  simp only [Int.ofNat_eq_natCast]
  refine ⟨by omega, by omega⟩

/-- range(a, b) starts with a when a < b. -/
theorem intRange_eq_cons {a b : ℤ} (h : a < b) :
    intRange a b = a :: intRange (a + 1) b := by
  unfold intRange
  have h1 : (b - a).toNat = (b - (a + 1)).toNat + 1 := by omega
  rw [h1, List.range_succ_eq_map, List.map_cons, List.map_map]
  refine congrArg₂ List.cons (by simp) (List.map_congr_left ?_)
  intro k hk
  simp only [Function.comp_apply, Int.ofNat_eq_natCast]
  push_cast
  ring

/-- range(a, b) splits at any midpoint m. -/
theorem intRange_split {a m b : ℤ} (h1 : a ≤ m) (h2 : m ≤ b) :
    intRange a b = intRange a m ++ intRange m b := by
  unfold intRange
  have h3 : (b - a).toNat = (m - a).toNat + (b - m).toNat := by omega
  rw [h3, List.range_add, List.map_append, List.map_map]
  refine congrArg₂ (· ++ ·) rfl (List.map_congr_left ?_)
  intro k hk
  simp only [Function.comp_apply, Int.ofNat_eq_natCast]
  push_cast
  omega

/-- The scan loop passes over every index that is the STOP_ID sentinel or
holds an inactive stage. -/
theorem findActiveAux_skip (l : List StageData) (t : ℚ) (ids1 ids2 : List ℤ)
    (h : ∀ i ∈ ids1, i = STOP_ID ∨
      ∃ s, pyGet l i = some s ∧ s.is_active t = false) :
    findActiveAux l t (ids1 ++ ids2) = findActiveAux l t ids2 := by
  induction ids1 with
  | nil => simp
  | cons i rest ih =>
    have hi := h i (List.mem_cons_self i rest)
    have hrest : ∀ j ∈ rest, j = STOP_ID ∨
        ∃ s, pyGet l j = some s ∧ s.is_active t = false :=
      fun j hj => h j (List.mem_cons_of_mem i hj)
    rcases hi with hstop | ⟨s, hs, hact⟩
    · simp only [List.cons_append, findActiveAux, if_pos hstop]
      exact ih hrest
    · by_cases hstop : i = STOP_ID
      · simp only [List.cons_append, findActiveAux, if_pos hstop]
        exact ih hrest
      · simp only [List.cons_append, findActiveAux, if_neg hstop, hs, hact]
        simpa using ih hrest

/-- The scan loop finds nothing when every index it visits is the STOP_ID
sentinel or holds an inactive stage. -/
theorem findActiveAux_none (l : List StageData) (t : ℚ) (ids : List ℤ)
    (h : ∀ i ∈ ids, i = STOP_ID ∨
      ∃ s, pyGet l i = some s ∧ s.is_active t = false) :
    findActiveAux l t ids = none := by
  have hskip := findActiveAux_skip l t ids [] h
  simpa using hskip

/-- The scan loop stops at an index holding an active stage. -/
theorem findActiveAux_cons_found (l : List StageData) (t : ℚ) (i : ℤ)
    (ids : List ℤ) (s : StageData) (hstop : i ≠ STOP_ID)
    (hs : pyGet l i = some s) (hact : s.is_active t = true) :
    findActiveAux l t (i :: ids) = some (i, s) := by
  simp [findActiveAux, if_neg hstop, hs, hact]

/-- Chained stages have a nonnegative total duration. -/
theorem chainedFrom_sumDur_nonneg (t0 : ℚ) (l : List StageData)
    (h : ChainedFrom t0 l) : 0 ≤ sumDur l := by
  induction l generalizing t0 with
  | nil => simp [sumDur]
  | cons s rest ih =>
    obtain ⟨-, hd, hrest⟩ := h
    have hr := ih (t0 + s.duration) hrest
    simp only [sumDur, List.map_cons, List.sum_cons] at hr ⊢
    linarith

/-- Every stage of a chain beginning at t0 starts no earlier than t0 and
ends no later than t0 plus the total duration. -/
theorem chainedFrom_get_bounds (t0 : ℚ) (l : List StageData)
    (h : ChainedFrom t0 l) (k : ℕ) (hk : k < l.length) :
    t0 ≤ (l.get ⟨k, hk⟩).start_time ∧
    (l.get ⟨k, hk⟩).get_end_time ≤ t0 + sumDur l := by
  induction l generalizing t0 k with
  | nil => exact absurd hk (by simp)
  | cons s rest ih =>
    obtain ⟨hstart, hd, hrest⟩ := h
    have hnn := chainedFrom_sumDur_nonneg _ rest hrest
    cases k with
    | zero =>
      constructor
      · show t0 ≤ s.start_time
        rw [hstart]
      · show s.get_end_time ≤ t0 + sumDur (s :: rest)
        simp only [sumDur] at hnn
        simp only [StageData.get_end_time, hstart, sumDur, List.map_cons,
          List.sum_cons]
        linarith
    | succ k0 =>
      have hk0 : k0 < rest.length := by simpa using hk
      have hih := ih (t0 + s.duration) hrest k0 hk0
      have hget : (s :: rest).get ⟨k0 + 1, hk⟩ = rest.get ⟨k0, hk0⟩ := rfl
      rw [hget]
      constructor
      · linarith [hih.1]
      · have h2 := hih.2
        simp only [sumDur, List.map_cons, List.sum_cons] at h2 ⊢
        linarith

/-- In a chain of stages at most one stage is active at any instant. -/
theorem chainedFrom_unique_active (t0 : ℚ) (l : List StageData)
    (h : ChainedFrom t0 l) (t : ℚ) (i j : ℕ) (hi : i < l.length)
    (hj : j < l.length) (hai : (l.get ⟨i, hi⟩).is_active t = true)
    (haj : (l.get ⟨j, hj⟩).is_active t = true) : i = j := by
  induction l generalizing t0 i j with
  | nil => exact absurd hi (by simp)
  | cons s rest ih =>
    obtain ⟨hstart, hd, hrest⟩ := h
    cases i with
    | zero =>
      cases j with
      | zero => rfl
      | succ j0 =>
        exfalso
        have hj0 : j0 < rest.length := by simpa using hj
        have h1 : t < t0 + s.duration := by
          have hh := (is_active_iff _ _).mp hai
          have : (s :: rest).get ⟨0, hi⟩ = s := rfl
          rw [this] at hh
          rw [hstart] at hh
          exact hh.2
        have hgetj : (s :: rest).get ⟨j0 + 1, hj⟩ = rest.get ⟨j0, hj0⟩ := rfl
        rw [hgetj] at haj
        have h2 := (chainedFrom_get_bounds _ rest hrest j0 hj0).1
        have h3 := ((is_active_iff _ _).mp haj).1
        linarith
    | succ i0 =>
      cases j with
      | zero =>
        exfalso
        have hi0 : i0 < rest.length := by simpa using hi
        have h1 : t < t0 + s.duration := by
          have hh := (is_active_iff _ _).mp haj
          have : (s :: rest).get ⟨0, hj⟩ = s := rfl
          rw [this] at hh
          rw [hstart] at hh
          exact hh.2
        have hgeti : (s :: rest).get ⟨i0 + 1, hi⟩ = rest.get ⟨i0, hi0⟩ := rfl
        rw [hgeti] at hai
        have h2 := (chainedFrom_get_bounds _ rest hrest i0 hi0).1
        have h3 := ((is_active_iff _ _).mp hai).1
        linarith
      | succ j0 =>
        have hi0 : i0 < rest.length := by simpa using hi
        have hj0 : j0 < rest.length := by simpa using hj
        have hgeti : (s :: rest).get ⟨i0 + 1, hi⟩ = rest.get ⟨i0, hi0⟩ := rfl
        have hgetj : (s :: rest).get ⟨j0 + 1, hj⟩ = rest.get ⟨j0, hj0⟩ := rfl
        rw [hgeti] at hai
        rw [hgetj] at haj
        exact congrArg Nat.succ (ih (t0 + s.duration) hrest i0 j0 hi0 hj0 hai haj)

/-- The last stage of a chain beginning at t0 ends at t0 plus the total
duration. -/
theorem chainedFrom_getLast_end (t0 : ℚ) (l : List StageData)
    (h : ChainedFrom t0 l) :
    ∀ p, l.getLast? = some p → p.get_end_time = t0 + sumDur l := by
  induction l generalizing t0 with
  | nil => intro p hp; simp at hp
  | cons s rest ih =>
    intro p hp
    obtain ⟨hstart, hd, hrest⟩ := h
    cases rest with
    | nil =>
      have hps : p = s := by
        simp [List.getLast?] at hp
        exact hp.symm
      subst hps
      simp [StageData.get_end_time, hstart, sumDur]
    | cons s2 rest2 =>
      have hp2 : (s2 :: rest2).getLast? = some p := by
        simpa [List.getLast?_cons_cons] using hp
      have hih := ih (t0 + s.duration) hrest p hp2
      rw [hih]
      simp only [sumDur, List.map_cons, List.sum_cons]
      ring

/-- Appending a stage whose start time is the end of a chain extends the
chain. -/
theorem chainedFrom_append (t0 : ℚ) (l : List StageData) (s : StageData)
    (h : ChainedFrom t0 l) (hd : 0 ≤ s.duration) :
    ChainedFrom t0 (l ++ [{ s with start_time := t0 + sumDur l }]) := by
  induction l generalizing t0 with
  | nil =>
    refine ⟨?_, hd, trivial⟩
    simp [sumDur]
  | cons s0 rest ih =>
    obtain ⟨hstart, hd0, hrest⟩ := h
    refine ⟨hstart, hd0, ?_⟩
    have hih := ih (t0 + s0.duration) hrest
    have heq : t0 + sumDur (s0 :: rest) = t0 + s0.duration + sumDur rest := by
      simp only [sumDur, List.map_cons, List.sum_cons]
      ring
    rw [heq]
    exact hih

/-- append_stage preserves the gapless chain invariant. -/
theorem chained_append_stage (c : StagesController) (s : StageData)
    (hch : ChainedFrom 0 c.stage_order) (hd : 0 ≤ s.duration) :
    ChainedFrom 0 (c.append_stage s).stage_order := by
  have key : ∀ x : ℚ, x = 0 + sumDur c.stage_order →
      ChainedFrom 0 (c.stage_order ++ [{ s with start_time := x }]) := by
    intro x hx
    rw [hx]
    exact chainedFrom_append 0 c.stage_order s hch hd
  simp only [StagesController.append_stage]
  cases hlast : c.stage_order.getLast? with
  | none =>
    have hnil : c.stage_order = [] := List.getLast?_eq_none_iff.mp hlast
    apply key
    simp [hnil, sumDur]
  | some p =>
    apply key
    simpa using chainedFrom_getLast_end 0 c.stage_order hch p hlast

/-- A successful emplace_stage call is an append_stage of a constructed
stage, whose duration is the nonnegative duration argument. -/
theorem emplace_stage_ok (c c2 : StagesController) (stage_type : Stages)
    (duration start_speed end_speed : ℚ)
    (h : c.emplace_stage stage_type duration start_speed end_speed =
      Except.ok c2) :
    ∃ d : StageData, 0 ≤ d.duration ∧ c2 = c.append_stage d := by
  unfold StagesController.emplace_stage Stage.init at h
  by_cases h1 : stage_type.value = Stages.STOP.value
  · rw [if_pos h1] at h
    simp only [bind, Except.bind] at h
    simp at h
  · rw [if_neg h1] at h
    by_cases h2 : duration < 0
    · rw [if_pos h2] at h
      simp only [bind, Except.bind] at h
      simp at h
    · rw [if_neg h2] at h
      by_cases h3 : c.total_spin_time ≠ -1
      · rw [if_pos h3] at h
        unfold pyDiv at h
        by_cases h4 : c.total_spin_time = 0
        · rw [if_pos h4] at h
          simp only [bind, Except.bind] at h
          simp at h
        · rw [if_neg h4] at h
          simp only [bind, Except.bind] at h
          simp at h
          exact ⟨_, not_lt.mp h2, h.symm⟩
      · rw [if_neg h3] at h
        simp only [bind, Except.bind] at h
        simp at h
        exact ⟨_, not_lt.mp h2, h.symm⟩

/-- Every controller built by appends has a chain of stages starting at 0. -/
theorem builtByAppends_chained (c : StagesController) (h : BuiltByAppends c) :
    ChainedFrom 0 c.stage_order := by
  induction h with
  | new total_spin_time => trivial
  | append c s hc hd ih => exact chained_append_stage c s ih hd
  | emplace c c2 stage_type duration start_speed end_speed hc h ih =>
    obtain ⟨d, hd, rfl⟩ := emplace_stage_ok c c2 stage_type duration
      start_speed end_speed h
    exact chained_append_stage c d ih hd

/-- C4. In a controller built from an empty sequence by append_stage and
emplace_stage calls, the first stage starts at 0 and every later stage
starts where the previous one ends (the ChainedFrom 0 invariant), and
consequently at most one stage is active at any instant. -/
theorem c4_append_chained_unique_active (c : StagesController)
    (h : BuiltByAppends c) :
    ChainedFrom 0 c.stage_order ∧
    ∀ (t : ℚ) (i j : ℕ) (hi : i < c.stage_order.length)
      (hj : j < c.stage_order.length),
      (c.stage_order.get ⟨i, hi⟩).is_active t = true →
      (c.stage_order.get ⟨j, hj⟩).is_active t = true → i = j := by
  have hch := builtByAppends_chained c h
  exact ⟨hch, fun t i j hi hj hai haj =>
    chainedFrom_unique_active 0 c.stage_order hch t i j hi hj hai haj⟩

/-- Witness for C4 on the controller built by appending the sample
acceleration stage to a fresh controller. -/
theorem c4_witness :
    ChainedFrom 0 ((StagesController.new 3).append_stage wStage1).stage_order ∧
    ∀ (t : ℚ) (i j : ℕ)
      (hi : i < ((StagesController.new 3).append_stage wStage1).stage_order.length)
      (hj : j < ((StagesController.new 3).append_stage wStage1).stage_order.length),
      (((StagesController.new 3).append_stage wStage1).stage_order.get
        ⟨i, hi⟩).is_active t = true →
      (((StagesController.new 3).append_stage wStage1).stage_order.get
        ⟨j, hj⟩).is_active t = true → i = j :=
  c4_append_chained_unique_active _
    (BuiltByAppends.append _ wStage1 (BuiltByAppends.new 3)
      (by norm_num [wStage1]))

/-- C2 amended. With a freshly reset cursor on a nonempty chained
sequence, a query at t < 0 or at t at or past the total duration finds no
active stage: the cursor is parked on STOP_ID and the STOP sentinel is
returned (the original claim expected the first phase for t < 0, but no
stage is active there, since the first stage starts at 0). -/
theorem c2_amended_out_of_range_is_stopped (c : StagesController) (t : ℚ)
    (hch : ChainedFrom 0 c.stage_order) (hne : c.stage_order ≠ [])
    (hcur : c.active_stage_id = 0)
    (htot : c.total_stages_duration = sumDur c.stage_order)
    (hrange : t < 0 ∨ c.total_stages_duration ≤ t) :
    c.get_current_stage t =
      ({ c with active_stage_id := STOP_ID }, STOP_STAGE) := by
  have hnone : findActiveAux c.stage_order t
      (intRange c.active_stage_id c.stage_order.length) = none := by
    apply findActiveAux_none
    intro i hi
    right
    obtain ⟨h0, hlt⟩ := mem_intRange hi
    rw [hcur] at h0
    obtain ⟨k, rfl⟩ : ∃ k : ℕ, i = (k : ℤ) := ⟨i.toNat, by omega⟩
    have hk : k < c.stage_order.length := by exact_mod_cast hlt
    refine ⟨c.stage_order.get ⟨k, hk⟩, ?_, ?_⟩
    · rw [pyGet_ofNat]
      exact List.get?_eq_get hk
    · have hb := chainedFrom_get_bounds 0 c.stage_order hch k hk
      have hinactive : ¬ ((c.stage_order.get ⟨k, hk⟩).is_active t = true) := by
        intro hact
        have hiff := (is_active_iff _ _).mp hact
        rcases hrange with hneg | hge
        · linarith [hb.1, hiff.1]
        · rw [htot] at hge
          have hend := hb.2
          simp only [StageData.get_end_time] at hend
          linarith [hiff.2]
      simpa using hinactive
  unfold StagesController.get_current_stage
  rw [hnone]

/-- C2 counterexample: on the one stage controller with a fresh cursor,
the query at t = -1 returns the STOP sentinel, not the first phase as the
claim states. -/
theorem c2_counterexample :
    (cEx1.get_current_stage (-1)).2 = STOP_STAGE ∧
    STOP_STAGE ≠ Stage.real wStage1 := by
  constructor
  · have hnone : findActiveAux cEx1.stage_order (-1)
        (intRange cEx1.active_stage_id cEx1.stage_order.length) = none := by
      apply findActiveAux_none
      intro i hi
      right
      obtain ⟨h0, hlt⟩ := mem_intRange hi
      have h0a : (0:ℤ) ≤ i := h0
      have hlta : i < 1 := by simpa [cEx1] using hlt
      have hi0 : i = ((0:ℕ) : ℤ) := by omega
      subst hi0
      refine ⟨wStage1, ?_, ?_⟩
      · rw [pyGet_ofNat]
        rfl
      · have : ¬ (wStage1.is_active (-1) = true) := by
          rw [is_active_iff]
          push_neg
          intro habs
          exfalso
          rw [wStage1] at habs
          norm_num at habs
        simpa using this
    show (cEx1.get_current_stage (-1)).snd = STOP_STAGE
    unfold StagesController.get_current_stage
    rw [hnone]
  · simp [STOP_STAGE]

/-- Witness for C2 amended on the one stage controller at t = -1. -/
theorem c2_witness :
    cEx1.get_current_stage (-1) =
      ({ cEx1 with active_stage_id := STOP_ID }, STOP_STAGE) :=
  c2_amended_out_of_range_is_stopped cEx1 (-1)
    (by simp [cEx1, ChainedFrom, wStage1])
    (by simp [cEx1])
    rfl
    (by norm_num [cEx1, sumDur, wStage1])
    (Or.inl (by norm_num))

/-- C10. With the cursor parked on the STOP_ID sentinel, the state is not
absorbing: the next query scans the whole chained list from index 0 (the
sentinel entry of the range is skipped), so a time lying inside stage j
moves the cursor to j and returns that stage, with no explicit reset by
the caller. -/
theorem c10_stop_not_absorbing (c : StagesController) (t : ℚ) (j : ℕ)
    (hj : j < c.stage_order.length) (hch : ChainedFrom 0 c.stage_order)
    (hcur : c.active_stage_id = STOP_ID)
    (hact : (c.stage_order.get ⟨j, hj⟩).is_active t = true) :
    c.get_current_stage t =
      ({ c with active_stage_id := (j : ℤ) },
       Stage.real (c.stage_order.get ⟨j, hj⟩)) := by
  have hfind : findActiveAux c.stage_order t
      (intRange c.active_stage_id c.stage_order.length) =
      some ((j : ℤ), c.stage_order.get ⟨j, hj⟩) := by
    rw [hcur]
    have h1 : STOP_ID < (c.stage_order.length : ℤ) := by
      have : (0:ℤ) ≤ (c.stage_order.length : ℤ) := by positivity
      simp only [STOP_ID]
      omega
    rw [intRange_eq_cons h1]
    simp only [findActiveAux, eq_self_iff_true, if_true]
    have h2 : STOP_ID + 1 = (0:ℤ) := by norm_num [STOP_ID]
    rw [h2]
    have h3 : (0:ℤ) ≤ (j:ℤ) := by omega
    have h4 : (j:ℤ) ≤ (c.stage_order.length:ℤ) := by exact_mod_cast le_of_lt hj
    rw [intRange_split h3 h4]
    rw [findActiveAux_skip]
    · have h5 : (j:ℤ) < (c.stage_order.length:ℤ) := by exact_mod_cast hj
      rw [intRange_eq_cons h5]
      apply findActiveAux_cons_found
      · simp only [STOP_ID]
        omega
      · rw [pyGet_ofNat]
        exact List.get?_eq_get hj
      · exact hact
    · intro i hi
      right
      obtain ⟨h6, h7⟩ := mem_intRange hi
      obtain ⟨k, rfl⟩ : ∃ k : ℕ, i = (k : ℤ) := ⟨i.toNat, by omega⟩
      have hkj : k < j := by exact_mod_cast h7
      have hk : k < c.stage_order.length := lt_trans hkj hj
      refine ⟨c.stage_order.get ⟨k, hk⟩, ?_, ?_⟩
      · rw [pyGet_ofNat]
        exact List.get?_eq_get hk
      · have : ¬ ((c.stage_order.get ⟨k, hk⟩).is_active t = true) := by
          intro habs
          have := chainedFrom_unique_active 0 c.stage_order hch t k j hk hj
            habs hact
          omega
        simpa using this
  unfold StagesController.get_current_stage
  rw [hfind]

/-- Witness for C10: on the three stage controller with the cursor parked
on STOP_ID, the query at t = 3/2 returns the middle stage and moves the
cursor to index 1. -/
theorem c10_witness :
    cExStop.get_current_stage (3/2) =
      ({ cExStop with active_stage_id := ((1:ℕ) : ℤ) },
       Stage.real (cExStop.stage_order.get ⟨1, by simp [cExStop]⟩)) :=
  c10_stop_not_absorbing cExStop (3/2) 1 (by simp [cExStop])
    (by norm_num [cExStop, ChainedFrom, wStage1, wStage2, wStage3])
    rfl
    (by rw [show (cExStop.stage_order.get ⟨1, by simp [cExStop]⟩) = wStage2
          from rfl, is_active_iff, wStage2]
        norm_num)

/-- Duration sums add over list concatenation. -/
theorem sumDur_append (a b : List StageData) :
    sumDur (a ++ b) = sumDur a + sumDur b := by
  simp [sumDur]

/-- With a nonzero old total, the rescale loop never raises and returns a
list of the same length whose durations sum to the returned total. -/
theorem updateStagesAux_ok (old_total new_total : ℚ) (hold : old_total ≠ 0) :
    ∀ (start : ℚ) (l : List StageData),
    ∃ res tot, updateStagesAux old_total new_total start l =
      Except.ok (res, tot) ∧ tot = sumDur res ∧ res.length = l.length := by
  intro start l
  induction l generalizing start with
  | nil => exact ⟨[], 0, rfl, by simp [sumDur], rfl⟩
  | cons s rest ih =>
    by_cases hc : s.time_coefficient ≠ -1
    · obtain ⟨res, tot, hres, htot, hlen⟩ :=
        ih (s.update_total_time start new_total s.time_coefficient).get_end_time
      refine ⟨s.update_total_time start new_total s.time_coefficient :: res,
        (s.update_total_time start new_total s.time_coefficient).duration + tot,
        ?_, ?_, ?_⟩
      · simp only [updateStagesAux, bind, Except.bind]
        rw [if_pos hc, hres]
      · simp only [sumDur, List.map_cons, List.sum_cons] at htot ⊢
        rw [htot]
      · simp [hlen]
    · obtain ⟨res, tot, hres, htot, hlen⟩ :=
        ih (s.update_total_time start new_total
          (s.duration / old_total)).get_end_time
      refine ⟨s.update_total_time start new_total (s.duration / old_total) :: res,
        (s.update_total_time start new_total (s.duration / old_total)).duration
          + tot, ?_, ?_, ?_⟩
      · have hpy : pyDiv s.duration old_total =
            Except.ok (s.duration / old_total) := by
          unfold pyDiv
          rw [if_neg hold]
        simp only [updateStagesAux, bind, Except.bind, if_neg hc, hpy, hres]
      · simp only [sumDur, List.map_cons, List.sum_cons] at htot ⊢
        rw [htot]
      · simp [hlen]

/-- Rescaling a chain whose recorded coefficients agree with
duration / old_total (or are unset) to the old total itself leaves every
duration and start time unchanged and returns the old duration sum. -/
theorem updateStagesAux_id (old_total : ℚ) (hold : old_total ≠ 0) :
    ∀ (t0 : ℚ) (l : List StageData), ChainedFrom t0 l →
    (∀ s ∈ l, s.time_coefficient = s.duration / old_total ∨
      s.time_coefficient = -1) →
    ∃ res, updateStagesAux old_total old_total t0 l =
      Except.ok (res, sumDur l) ∧
    res.map (fun s => (s.duration, s.start_time)) =
      l.map (fun s => (s.duration, s.start_time)) := by
  intro t0 l
  induction l generalizing t0 with
  | nil =>
    intro _ _
    exact ⟨[], by simp [updateStagesAux, sumDur], rfl⟩
  | cons s rest ih =>
    intro hch hco
    obtain ⟨hstart, hd, hrest⟩ := hch
    have hcos := hco s (List.mem_cons_self s rest)
    have hdur : old_total * (s.duration / old_total) = s.duration := by
      field_simp
    have hend : (s.update_total_time t0 old_total
        (s.duration / old_total)).get_end_time = t0 + s.duration := by
      simp [StageData.update_total_time, StageData.get_end_time, hdur]
    obtain ⟨res, hres, hmap⟩ := ih (t0 + s.duration) hrest
      (fun x hx => hco x (List.mem_cons_of_mem s hx))
    refine ⟨s.update_total_time t0 old_total (s.duration / old_total) :: res,
      ?_, ?_⟩
    · have hcoeff : updateStagesAux old_total old_total t0 (s :: rest) =
          updateStagesAux old_total old_total
            ((s.update_total_time t0 old_total
              (s.duration / old_total)).get_end_time) rest >>= fun p =>
            Except.ok (s.update_total_time t0 old_total
              (s.duration / old_total) :: p.1,
              (s.update_total_time t0 old_total
                (s.duration / old_total)).duration + p.2) := by
        by_cases hc : s.time_coefficient ≠ -1
        · have hleft : s.time_coefficient = s.duration / old_total := by
            rcases hcos with h | h
            · exact h
            · exact absurd h hc
          simp only [updateStagesAux, bind, Except.bind]
          rw [if_pos hc, hleft]
        · simp only [updateStagesAux, bind, Except.bind]
          rw [if_neg hc]
          unfold pyDiv
          rw [if_neg hold]
      rw [hcoeff, hend, hres]
      simp only [bind, Except.bind]
      have hsums : (s.update_total_time t0 old_total
          (s.duration / old_total)).duration + sumDur rest =
          sumDur (s :: rest) := by
        simp only [StageData.update_total_time, sumDur, List.map_cons,
          List.sum_cons]
        rw [hdur]
      rw [hsums]
    · simp only [List.map_cons]
      rw [hmap]
      simp only [StageData.update_total_time, hdur, hstart]

/-- C9. Rescaling a consistent controller (chained stages, coefficients
matching duration over the total or unset, durations summing to the
total) to its own total spin time is an identity on every duration and
start time. -/
theorem c9_rescale_identity (c : StagesController)
    (hch : ChainedFrom 0 c.stage_order)
    (hco : ∀ s ∈ c.stage_order,
      s.time_coefficient = s.duration / c.total_spin_time ∨
      s.time_coefficient = -1)
    (hold : c.total_spin_time ≠ 0)
    (hsum : sumDur c.stage_order = c.total_spin_time) :
    ∃ c2, c.update_total_time c.total_spin_time = Except.ok c2 ∧
      c2.stage_order.map (fun s => (s.duration, s.start_time)) =
      c.stage_order.map (fun s => (s.duration, s.start_time)) := by
  obtain ⟨res, hres, hmap⟩ :=
    updateStagesAux_id c.total_spin_time hold 0 c.stage_order hch hco
  refine ⟨{ c with
      stage_order := res
      total_stages_duration := sumDur c.stage_order
      total_spin_time := c.total_spin_time }, ?_, hmap⟩
  unfold StagesController.update_total_time
  simp only [bind, Except.bind, hres]
  rw [if_neg (by simp [hsum])]

/-- Witness for C9 on the three stage controller cEx3 (all three
coefficients unset, durations 1 + 1 + 1 summing to the total 3). -/
theorem c9_witness :
    ∃ c2, cEx3.update_total_time cEx3.total_spin_time = Except.ok c2 ∧
      c2.stage_order.map (fun s => (s.duration, s.start_time)) =
      cEx3.stage_order.map (fun s => (s.duration, s.start_time)) :=
  c9_rescale_identity cEx3
    (by norm_num [cEx3, ChainedFrom, wStage1, wStage2, wStage3])
    (by intro s hs
        right
        simp [cEx3] at hs
        rcases hs with rfl | rfl | rfl <;> rfl)
    (by norm_num [cEx3])
    (by norm_num [cEx3, sumDur, wStage1, wStage2, wStage3])

/-- C3. On a nonempty controller with a nonzero recorded total,
update_total_time succeeds, the new durations sum exactly to the
requested total, and the whole discrepancy between the individually
rescaled durations and the requested total is folded into the last stage
alone: all stages but the last are exactly the rescaled ones, and the
last stage is the rescaled one with the difference added to its
duration. -/
theorem c3_rescale_total_sum (c : StagesController) (new_total : ℚ)
    (hne : c.stage_order ≠ []) (hold : c.total_spin_time ≠ 0) :
    ∃ res tot c2,
      updateStagesAux c.total_spin_time new_total 0 c.stage_order =
        Except.ok (res, tot) ∧
      c.update_total_time new_total = Except.ok c2 ∧
      tot = sumDur res ∧
      sumDur c2.stage_order = new_total ∧
      c2.total_stages_duration = new_total ∧
      c2.stage_order.dropLast = res.dropLast ∧
      ∀ lr ln, res.getLast? = some lr → c2.stage_order.getLast? = some ln →
        ln = { lr with duration := lr.duration + (new_total - tot) } := by
  obtain ⟨res, tot, hres, htot, hlen⟩ :=
    updateStagesAux_ok c.total_spin_time new_total hold 0 c.stage_order
  have hres_ne : res ≠ [] := by
    intro hcon
    rw [hcon] at hlen
    exact hne (List.length_eq_zero.mp hlen.symm)
  obtain ⟨lv, hlv⟩ : ∃ lv, res.getLast? = some lv :=
    ⟨res.getLast hres_ne, List.getLast?_eq_getLast res hres_ne⟩
  have hsplit : res.dropLast ++ [lv] = res := by
    have e0 : lv = res.getLast hres_ne := by
      have hgl := List.getLast?_eq_getLast res hres_ne
      rw [hlv] at hgl
      exact Option.some_inj.mp hgl
    rw [e0]
    exact List.dropLast_append_getLast hres_ne
  by_cases hmm : tot = new_total
  · refine ⟨res, tot, { c with
        stage_order := res
        total_stages_duration := tot
        total_spin_time := new_total },
      hres, ?_, htot, ?_, ?_, rfl, ?_⟩
    · unfold StagesController.update_total_time
      simp only [bind, Except.bind, hres]
      rw [if_neg (by simp [hmm])]
    · show sumDur res = new_total
      rw [← htot, hmm]
    · exact hmm
    · intro lr ln h1 h2
      rw [hlv] at h1 h2
      have e1 : lv = lr := Option.some_inj.mp h1
      have e2 : lv = ln := Option.some_inj.mp h2
      have hz : lv.duration + (new_total - tot) = lv.duration := by
        rw [hmm]
        ring
      rw [← e2, ← e1, hz]
  · refine ⟨res, tot, { c with
        stage_order := res.dropLast ++
          [{ lv with duration := lv.duration + (new_total - tot) }]
        total_stages_duration := new_total
        total_spin_time := new_total },
      hres, ?_, htot, ?_, rfl, ?_, ?_⟩
    · unfold StagesController.update_total_time
      simp only [bind, Except.bind, hres]
      rw [if_pos hmm, hlv]
    · show sumDur (res.dropLast ++ [_]) = new_total
      rw [sumDur_append]
      have hsum2 : sumDur res = sumDur res.dropLast + lv.duration := by
        conv_lhs => rw [← hsplit]
        rw [sumDur_append]
        simp [sumDur]
      rw [← htot] at hsum2
      simp only [sumDur, List.map_cons, List.sum_cons, List.map_nil,
        List.sum_nil]
      have hd2 : sumDur res.dropLast =
          (List.map StageData.duration res.dropLast).sum := rfl
      rw [← hd2]
      linarith [hsum2]
    · exact List.dropLast_concat
    · intro lr ln h1 h2
      rw [hlv] at h1
      have e1 : lr = lv := (Option.some_inj.mp h1).symm
      rw [List.getLast?_concat] at h2
      have e2 := (Option.some_inj.mp h2).symm
      subst e1
      exact e2

/-- Witness for C3 on the three stage controller cEx3 rescaled to a total
of 6. -/
theorem c3_witness :
    ∃ res tot c2,
      updateStagesAux cEx3.total_spin_time 6 0 cEx3.stage_order =
        Except.ok (res, tot) ∧
      cEx3.update_total_time 6 = Except.ok c2 ∧
      tot = sumDur res ∧
      sumDur c2.stage_order = 6 ∧
      c2.total_stages_duration = 6 ∧
      c2.stage_order.dropLast = res.dropLast ∧
      ∀ lr ln, res.getLast? = some lr → c2.stage_order.getLast? = some ln →
        ln = { lr with duration := lr.duration + (6 - tot) } :=
  c3_rescale_total_sum cEx3 6 (by simp [cEx3]) (by norm_num [cEx3])
